import Mathlib

/-!
Verification of the OpenAPI validator (`scripts/validate.py`).

The engine receives an already-parsed JSON value.  JSON values are modelled by
the inductive type `JVal`; Python dicts preserve insertion order, so an object
is a list of key/value pairs in document order, and a parsed JSON object has
pairwise-distinct keys (`wf_json`).

A Python float is never computed with here: the engine only ever applies
`str(...)` and truth-value testing to numbers, so the constructor `floatNum`
carries the string `str(f)` produced for the parsed float (e.g. the JSON
literal `3.0` parses to the float whose `str` is `"3.0"`); an integer literal
parses to `intNum`.  `str` of a container is rendered by `pyRepr`; escape
sequences inside the Python `repr` of strings are not modelled (no check
compares such a rendering against anything).

Python raises `TypeError` when an unhashable value (a list or a dict) is added
to a set; `collect_schema_refs` can reach such an `add`, so evaluation is
modelled in `Except String`.
-/

inductive JVal where
  | obj (fields : List (String × JVal))
  | arr (elems : List JVal)
  | str (s : String)
  | intNum (n : Int)
  | floatNum (r : String)
  | bool (b : Bool)
  | null
deriving Repr, Inhabited

/-- Python dict lookup (keys of a parsed JSON object are distinct, so the
first match is the only match). -/
def lookupField : List (String × JVal) → String → Option JVal
  | [], _ => none
  | (k, v) :: rest, key => if k == key then some v else lookupField rest key

/-- Python `key in dict`. -/
def hasField (fields : List (String × JVal)) (key : String) : Bool :=
  (lookupField fields key).isSome

/-- Python truth-value testing (`bool(x)`): empty containers, empty strings,
zero numbers, `False` and `None` are falsy. -/
def py_truthy : JVal → Bool
  | JVal.obj fields => !fields.isEmpty
  | JVal.arr elems => !elems.isEmpty
  | JVal.str s => !s.data.isEmpty
  | JVal.intNum n => n != 0
  | JVal.floatNum r => !(r == "0.0" || r == "-0.0")
  | JVal.bool b => b
  | JVal.null => false

/-- Truthiness of `d.get(k)`: absence gives Python `None`, which is falsy. -/
def py_truthy_opt : Option JVal → Bool
  | none => false
  | some v => py_truthy v

mutual
/-- Python `str(v)` and `repr(v)` for values nested inside a container
(`str` and `repr` agree on everything the engine can meet there except that
`str` of a top-level string is the string itself, handled in `pyStr`). -/
def pyRepr : JVal → String
  | JVal.obj fields => "\x7b" ++ pyReprFields fields ++ "\x7d"
  | JVal.arr elems => "[" ++ pyReprElems elems ++ "]"
  | JVal.str s => "'" ++ s ++ "'"
  | JVal.intNum n => toString n
  | JVal.floatNum r => r
  | JVal.bool b => if b then "True" else "False"
  | JVal.null => "None"

def pyReprFields : List (String × JVal) → String
  | [] => ""
  | [(k, v)] => "'" ++ k ++ "': " ++ pyRepr v
  | (k, v) :: rest => "'" ++ k ++ "': " ++ pyRepr v ++ ", " ++ pyReprFields rest

def pyReprElems : List JVal → String
  | [] => ""
  | [v] => pyRepr v
  | v :: rest => pyRepr v ++ ", " ++ pyReprElems rest
end

/-- Python `str(v)`. -/
def pyStr : JVal → String
  | JVal.str s => s
  | v => pyRepr v

/-- Lowercasing of one character as Python `str.lower` does on ASCII
(the eight HTTP method names are pure ASCII, so non-ASCII case folding can
never make a key match the method set and is not modelled). -/
def charLower (c : Char) : Char :=
  if 'A' ≤ c ∧ c ≤ 'Z' then Char.ofNat (c.toNat + 32) else c

/-- Python `s.lower()`. -/
def pyLower (s : String) : String := String.mk (s.data.map charLower)

/-- Python `s.startswith(p)`. -/
def startsWithList : List Char → List Char → Bool
  | [], _ => true
  | _ :: _, [] => false
  | a :: xs, b :: ys => a == b && startsWithList xs ys

def py_startswith (s p : String) : Bool := startsWithList p.data s.data

/-- Python `s.split(sep)` for a one-character separator. -/
def splitOnChar (c : Char) : List Char → List (List Char)
  | [] => [[]]
  | a :: rest =>
    let r := splitOnChar c rest
    if a == c then [] :: r
    else
      match r with
      | h :: t => (a :: h) :: t
      | [] => [[a]]

def py_split (s : String) (c : Char) : List String :=
  (splitOnChar c s.data).map String.mk

/-- A single validation finding (error or warning); `to_dict`/`to_text` are
renderer plumbing and out of scope. -/
structure Finding where
  severity : String
  path : String
  message : String
deriving Repr, DecidableEq

def VALID_HTTP_METHODS : List String :=
  ["get", "put", "post", "delete", "options", "head", "patch", "trace"]

/-- Predicate of `re.search(r'[a-z][A-Z]', segment)`: some lowercase ASCII letter is
immediately followed by an uppercase ASCII letter. -/
def has_camel_pair : List Char → Bool
  | a :: b :: rest =>
    if 'a' ≤ a ∧ a ≤ 'z' ∧ 'A' ≤ b ∧ b ≤ 'Z' then true
    else has_camel_pair (b :: rest)
  | _ => false

/-- Function `is_camel_case` from the source. -/
def is_camel_case (segment : String) : Bool :=
  if segment.data.isEmpty || py_startswith segment "\x7b" then false
  else has_camel_pair segment.data

/-- Function `is_snake_case` from the source. -/
def is_snake_case (segment : String) : Bool :=
  if segment.data.isEmpty || py_startswith segment "\x7b" then false
  else segment.data.contains '_'

/-- The message of the `TypeError` Python raises for `set.add` of an
unhashable value. -/
def unhashable_message : JVal → String
  | JVal.arr _ => "TypeError: unhashable type: 'list'"
  | JVal.obj _ => "TypeError: unhashable type: 'dict'"
  | _ => ""

mutual
/-- Function `collect_schema_refs` from the source: one full recursive traversal
adding the value of every `$ref` key to the set and descending into every
dict value and list element.  `set.add` raises `TypeError` when the value is
unhashable (a list or a dict); only set membership is ever queried, so the
set is carried as a list of added values. -/
def collect_schema_refs (v : JVal) (refs : List JVal) : Except String (List JVal) :=
  match v with
  | JVal.obj fields =>
    match
      (match lookupField fields "$ref" with
       | some (JVal.obj f) => Except.error (unhashable_message (JVal.obj f))
       | some (JVal.arr e) => Except.error (unhashable_message (JVal.arr e))
       | some r => Except.ok (r :: refs)
       | none => Except.ok refs) with
    | Except.error e => Except.error e
    | Except.ok refs1 => collectFields fields refs1
  | JVal.arr elems => collectElems elems refs
  | _ => Except.ok refs

def collectFields (fields : List (String × JVal)) (refs : List JVal) : Except String (List JVal) :=
  match fields with
  | [] => Except.ok refs
  | (_, v) :: rest =>
    match collect_schema_refs v refs with
    | Except.error e => Except.error e
    | Except.ok refs1 => collectFields rest refs1

def collectElems (elems : List JVal) (refs : List JVal) : Except String (List JVal) :=
  match elems with
  | [] => Except.ok refs
  | v :: rest =>
    match collect_schema_refs v refs with
    | Except.error e => Except.error e
    | Except.ok refs1 => collectElems rest refs1
end

/-- Python `ref_string in all_refs` where `ref_string` is a `str`: a string
equals no value of another type. -/
def refs_contain_str (refs : List JVal) (s : String) : Bool :=
  refs.any fun v =>
    match v with
    | JVal.str t => t == s
    | _ => false

/-- Lines 67-73: the `openapi` version check. -/
def check_version (spec : List (String × JVal)) : List Finding :=
  match lookupField spec "openapi" with
  | none => [Finding.mk "error" "openapi" "Missing required 'openapi' version field"]
  | some v =>
    let version := pyStr v
    if !(py_startswith version "3.0" || py_startswith version "3.1") then
      [Finding.mk "error" "openapi"
        ("Unsupported OpenAPI version: " ++ version ++ " (expected 3.0.x or 3.1.x)")]
    else []

/-- Lines 75-81: the `info` / `info.title` check. -/
def check_info (spec : List (String × JVal)) : List Finding :=
  match lookupField spec "info" with
  | some (JVal.obj infoFields) =>
    match lookupField infoFields "title" with
    | none => [Finding.mk "error" "info.title" "Missing required 'info.title' field"]
    | some t =>
      if !py_truthy t then
        [Finding.mk "error" "info.title" "Missing required 'info.title' field"]
      else []
  | _ => [Finding.mk "error" "info" "Missing required 'info' object"]

/-- Lines 83-85: presence of the `paths` key. -/
def check_paths_presence (spec : List (String × JVal)) : List Finding :=
  if !hasField spec "paths" then
    [Finding.mk "error" "paths" "Missing required 'paths' object"]
  else []

def reserved_path_item_keys : List String :=
  ["parameters", "summary", "description", "servers", "$ref"]

/-- Lines 87-102: invalid HTTP methods under `paths`. -/
def check_methods (spec : List (String × JVal)) : List Finding :=
  match (lookupField spec "paths").getD (JVal.obj []) with
  | JVal.obj pathsFields =>
    pathsFields.flatMap fun pathEntry =>
      match pathEntry.2 with
      | JVal.obj itemFields =>
        itemFields.flatMap fun methodEntry =>
          if reserved_path_item_keys.contains methodEntry.1 then []
          else if !(VALID_HTTP_METHODS.contains (pyLower methodEntry.1)) then
            [Finding.mk "error" ("paths." ++ pathEntry.1 ++ "." ++ methodEntry.1)
              ("Invalid HTTP method: '" ++ methodEntry.1 ++ "'")]
          else []
      | _ => []
  | _ => []

/-- Lines 106-108: missing `info.description`. -/
def check_info_description (spec : List (String × JVal)) : List Finding :=
  match lookupField spec "info" with
  | some (JVal.obj infoFields) =>
    match lookupField infoFields "description" with
    | none => [Finding.mk "warning" "info.description" "Missing 'info.description'"]
    | some d =>
      if !py_truthy d then
        [Finding.mk "warning" "info.description" "Missing 'info.description'"]
      else []
  | _ => []

/-- Lines 122-141 (inner body): warnings for one recognized operation. -/
def operation_warnings (op_path : String) (opFields : List (String × JVal)) : List Finding :=
  let has_summary := py_truthy_opt (lookupField opFields "summary")
  let has_description := py_truthy_opt (lookupField opFields "description")
  (if !has_summary && !has_description then
    [Finding.mk "warning" op_path "Operation is missing both 'summary' and 'description'"]
  else []) ++
  (match (lookupField opFields "responses").getD (JVal.obj []) with
   | JVal.obj responsesFields =>
     responsesFields.flatMap fun respEntry =>
       match respEntry.2 with
       | JVal.obj respFields =>
         if !py_truthy_opt (lookupField respFields "description") then
           [Finding.mk "warning" (op_path ++ ".responses." ++ respEntry.1)
             "Response is missing 'description'"]
         else []
       | _ => []
   | _ => [])

/-- Lines 110-141: operation summary/description and response-description
warnings. -/
def check_operations (spec : List (String × JVal)) : List Finding :=
  match (lookupField spec "paths").getD (JVal.obj []) with
  | JVal.obj pathsFields =>
    pathsFields.flatMap fun pathEntry =>
      match pathEntry.2 with
      | JVal.obj itemFields =>
        itemFields.flatMap fun methodEntry =>
          if !(VALID_HTTP_METHODS.contains (pyLower methodEntry.1)) then []
          else
            match methodEntry.2 with
            | JVal.obj opFields =>
              operation_warnings ("paths." ++ pathEntry.1 ++ "." ++ methodEntry.1) opFields
            | _ => []
      | _ => []
  | _ => []

/-- Line 148: the segment list of one path key. -/
def path_segments (path_key : String) : List String :=
  (py_split path_key '/').filter fun s => !s.data.isEmpty && !py_startswith s "\x7b"

/-- Lines 149-155 (one iteration of the outer loop): the first segment that is
camelCase or snake_case classifies the path and stops the scan
(`some true` = appended to `camel_paths`, `some false` = to `snake_paths`). -/
def classify_key_segments : List String → Option Bool
  | [] => none
  | seg :: rest =>
    if is_camel_case seg then some true
    else if is_snake_case seg then some false
    else classify_key_segments rest

/-- The `camel_paths` list built by lines 145-155, in document order. -/
def camel_paths (pathsFields : List (String × JVal)) : List String :=
  (pathsFields.filter fun kv => classify_key_segments (path_segments kv.1) == some true).map
    Prod.fst

/-- The `snake_paths` list built by lines 145-155, in document order. -/
def snake_paths (pathsFields : List (String × JVal)) : List String :=
  (pathsFields.filter fun kv => classify_key_segments (path_segments kv.1) == some false).map
    Prod.fst

/-- Lines 143-161: the path-naming consistency warning. -/
def check_naming (spec : List (String × JVal)) : List Finding :=
  match (lookupField spec "paths").getD (JVal.obj []) with
  | JVal.obj pathsFields =>
    if !(camel_paths pathsFields).isEmpty && !(snake_paths pathsFields).isEmpty then
      [Finding.mk "warning" "paths"
        "Inconsistent path naming: mix of camelCase and snake_case detected"]
    else []
  | _ => []

/-- Lines 163-176: the unused-schema check; calling `collect_schema_refs` can
raise, which aborts the whole evaluation. -/
def check_unused (spec : List (String × JVal)) : Except String (List Finding) :=
  match (lookupField spec "components").getD (JVal.obj []) with
  | JVal.obj componentsFields =>
    match (lookupField componentsFields "schemas").getD (JVal.obj []) with
    | JVal.obj schemaFields =>
      if schemaFields.isEmpty then Except.ok []
      else
        match collect_schema_refs (JVal.obj spec) [] with
        | Except.error e => Except.error e
        | Except.ok all_refs =>
          Except.ok (schemaFields.flatMap fun kv =>
            let ref_string := "#/components/schemas/" ++ kv.1
            if !refs_contain_str all_refs ref_string then
              [Finding.mk "warning" ("components.schemas." ++ kv.1)
                ("Schema '" ++ kv.1 ++ "' is defined but never referenced")]
            else [])
    | _ => Except.ok []
  | _ => Except.ok []

/-- Function `validate_spec` from the source: the checks run in source order and their
findings are concatenated; an uncaught `TypeError` from the unused-schema
check aborts evaluation with no findings at all. -/
def validate_spec (spec : List (String × JVal)) : Except String (List Finding) :=
  match check_unused spec with
  | Except.error e => Except.error e
  | Except.ok unused =>
    Except.ok (check_version spec ++ check_info spec ++ check_paths_presence spec ++
      check_methods spec ++ check_info_description spec ++ check_operations spec ++
      check_naming spec ++ unused)

/-- Lines 224-227 of `main`: strict mode rewrites the severity of every
warning finding to `"error"` in place. -/
def promote_warnings (findings : List Finding) : List Finding :=
  findings.map fun f =>
    if f.severity == "warning" then Finding.mk "error" f.path f.message else f

/-- Line 229 of `main`. -/
def count_errors (findings : List Finding) : Nat :=
  (findings.filter fun f => f.severity == "error").length

/-- Line 230 of `main`. -/
def count_warnings (findings : List Finding) : Nat :=
  (findings.filter fun f => f.severity == "warning").length

/-! ## Claim-side definitions

These definitions follow the words of the specification / claims (not the
source); the theorems below relate them to the source functions above. -/

/-- A value Python can hash (admissible as a set element): everything the
decoder produces except lists and dicts. -/
def jval_hashable : JVal → Bool
  | JVal.obj _ => false
  | JVal.arr _ => false
  | _ => true

mutual
/-- Some `$ref` key reachable by the traversal of `collect_schema_refs` maps
to an unhashable value (the condition under which its `set.add` raises). -/
def hasUnhashableRef : JVal → Bool
  | JVal.obj fields =>
    (match lookupField fields "$ref" with
     | some (JVal.obj _) => true
     | some (JVal.arr _) => true
     | _ => false) || fieldsHaveUnhashableRef fields
  | JVal.arr elems => elemsHaveUnhashableRef elems
  | _ => false

def fieldsHaveUnhashableRef : List (String × JVal) → Bool
  | [] => false
  | (_, v) :: rest => hasUnhashableRef v || fieldsHaveUnhashableRef rest

def elemsHaveUnhashableRef : List JVal → Bool
  | [] => false
  | v :: rest => hasUnhashableRef v || elemsHaveUnhashableRef rest
end

mutual
/-- The reference index as claim C3 words it: the values of every `$ref` key,
reached by recursively descending into objects and sequences, where a `$ref`
key's own value is not further descended into. -/
def claim_ref_index : JVal → List JVal
  | JVal.obj fields =>
    (match lookupField fields "$ref" with
     | some v => [v]
     | none => []) ++ claimIndexFields fields
  | JVal.arr elems => claimIndexElems elems
  | _ => []

def claimIndexFields : List (String × JVal) → List JVal
  | [] => []
  | (k, v) :: rest =>
    (if k == "$ref" then [] else claim_ref_index v) ++ claimIndexFields rest

def claimIndexElems : List JVal → List JVal
  | [] => []
  | v :: rest => claim_ref_index v ++ claimIndexElems rest
end

/-- The keys of one object are pairwise distinct. -/
def distinct_keys : List String → Bool
  | [] => true
  | k :: rest => !(rest.contains k) && distinct_keys rest

mutual
/-- A value is representable as a parsed Python JSON document: every object
in the tree has pairwise-distinct keys (as every Python dict does). -/
def wf_json : JVal → Bool
  | JVal.obj fields => distinct_keys (fields.map Prod.fst) && wfFields fields
  | JVal.arr elems => wfElems elems
  | _ => true

def wfFields : List (String × JVal) → Bool
  | [] => true
  | (_, v) :: rest => wf_json v && wfFields rest

def wfElems : List JVal → Bool
  | [] => true
  | v :: rest => wf_json v && wfElems rest
end

/-- Classification of one path key as claim C2 words it: camelCase when ANY
remaining segment contains a lowercase letter immediately followed by an
uppercase letter, else snake_case when ANY remaining segment contains an
underscore, else unclassified. -/
def claim_classify (path_key : String) : Option Bool :=
  let segs := path_segments path_key
  if segs.any fun s => has_camel_pair s.data then some true
  else if segs.any fun s => s.data.contains '_' then some false
  else none

/-! ## Basic lemmas -/

theorem str_data_inj {s t : String} (h : s.data = t.data) : s = t := by
  cases s
  cases t
  exact congrArg String.mk h

theorem paths_prefix_ne_openapi (r : String) : "paths." ++ r ≠ "openapi" := by
  intro h
  have h2 := congrArg String.data h
  simp [String.data_append] at h2

theorem paths_prefix_ne_paths (r : String) : "paths." ++ r ≠ "paths" := by
  intro h
  have h2 := congrArg String.data h
  simp [String.data_append] at h2

theorem paths_prefix_ne_info (r : String) : "paths." ++ r ≠ "info" := by
  intro h
  have h2 := congrArg String.data h
  simp [String.data_append] at h2

theorem paths_prefix_ne_info_title (r : String) : "paths." ++ r ≠ "info.title" := by
  intro h
  have h2 := congrArg String.data h
  simp [String.data_append] at h2

theorem paths_prefix_ne_info_description (r : String) : "paths." ++ r ≠ "info.description" := by
  intro h
  have h2 := congrArg String.data h
  simp [String.data_append] at h2

theorem schemas_prefix_ne_openapi (s : String) : "components.schemas." ++ s ≠ "openapi" := by
  intro h
  have h2 := congrArg String.data h
  simp [String.data_append] at h2

theorem schemas_prefix_ne_paths (s : String) : "components.schemas." ++ s ≠ "paths" := by
  intro h
  have h2 := congrArg String.data h
  simp [String.data_append] at h2

theorem schemas_prefix_ne_info (s : String) : "components.schemas." ++ s ≠ "info" := by
  intro h
  have h2 := congrArg String.data h
  simp [String.data_append] at h2

theorem schemas_prefix_ne_info_title (s : String) : "components.schemas." ++ s ≠ "info.title" := by
  intro h
  have h2 := congrArg String.data h
  simp [String.data_append] at h2

theorem schemas_prefix_ne_info_description (s : String) :
    "components.schemas." ++ s ≠ "info.description" := by
  intro h
  have h2 := congrArg String.data h
  simp [String.data_append] at h2

theorem schemas_ne_paths_dot (s r : String) :
    "components.schemas." ++ s ≠ "paths." ++ r := by
  intro h
  have h2 := congrArg String.data h
  simp [String.data_append] at h2

theorem schemas_prefix_inj {s t : String}
    (h : "components.schemas." ++ s = "components.schemas." ++ t) : s = t := by
  have h2 := congrArg String.data h
  simp [String.data_append] at h2
  exact str_data_inj h2

theorem invalid_method_message_inj {m m' : String}
    (h : "Invalid HTTP method: '" ++ m ++ "'" = "Invalid HTTP method: '" ++ m' ++ "'") :
    m = m' := by
  have h2 := congrArg String.data h
  simp [String.data_append] at h2
  exact str_data_inj h2

theorem unsupported_ne_invalid (v m : String) :
    "Unsupported OpenAPI version: " ++ v ++ " (expected 3.0.x or 3.1.x)" ≠
      "Invalid HTTP method: '" ++ m ++ "'" := by
  intro h
  have h2 := congrArg String.data h
  simp [String.data_append] at h2

theorem refs_contain_str_append (a b : List JVal) (s : String) :
    refs_contain_str (a ++ b) s = (refs_contain_str a s || refs_contain_str b s) := by
  simp [refs_contain_str, List.any_append]

theorem lookupField_eq_none {fields : List (String × JVal)} {key : String}
    (h : lookupField fields key = none) : ∀ p ∈ fields, p.1 ≠ key := by
  induction fields with
  | nil => intro p hp; simp at hp
  | cons a rest ih =>
    obtain ⟨k, v⟩ := a
    intro p hp
    cases hbk : (k == key) with
    | true => simp [lookupField, hbk] at h
    | false =>
      simp only [lookupField, hbk, Bool.false_eq_true, if_false] at h
      rcases List.mem_cons.mp hp with heq | hmem
      · subst heq
        simpa using hbk
      · exact ih h p hmem

theorem lookupField_of_mem_distinct {fields : List (String × JVal)} {k : String} {v : JVal}
    (hd : distinct_keys (fields.map Prod.fst) = true) (h : (k, v) ∈ fields) :
    lookupField fields k = some v := by
  induction fields with
  | nil => simp at h
  | cons a rest ih =>
    obtain ⟨k1, v1⟩ := a
    simp only [List.map_cons, distinct_keys, Bool.and_eq_true, Bool.not_eq_true'] at hd
    rcases List.mem_cons.mp h with heq | hmem
    · cases heq
      simp [lookupField]
    · by_cases hkk : (k1 == k) = true
      · exfalso
        have hmm : k ∈ rest.map Prod.fst := List.mem_map.mpr ⟨(k, v), hmem, rfl⟩
        have hk1k : k1 = k := by simpa using hkk
        rw [hk1k] at hd
        have := hd.1
        simp [List.contains] at this
        exact absurd hmm (by simpa using this)
      · simp only [lookupField, hkk, Bool.false_eq_true, if_false]
        exact ih hd.2 hmem

theorem hasField_false_iff {fields : List (String × JVal)} {key : String} :
    hasField fields key = false ↔ lookupField fields key = none := by
  cases h : lookupField fields key <;> simp [hasField, h]

theorem wfFields_mem {fields : List (String × JVal)} {p : String × JVal}
    (hw : wfFields fields = true) (h : p ∈ fields) : wf_json p.2 = true := by
  induction fields with
  | nil => simp at h
  | cons a rest ih =>
    obtain ⟨k, v⟩ := a
    simp only [wfFields, Bool.and_eq_true] at hw
    rcases List.mem_cons.mp h with heq | hmem
    · subst heq; exact hw.1
    · exact ih hw.2 hmem

theorem collect_leaf {v : JVal} (h : jval_hashable v = true) (refs : List JVal) :
    collect_schema_refs v refs = Except.ok refs := by
  cases v <;> simp_all [jval_hashable, collect_schema_refs]

theorem claim_index_leaf {v : JVal} (h : jval_hashable v = true) : claim_ref_index v = [] := by
  cases v <;> simp_all [jval_hashable, claim_ref_index]

theorem collect_ok_of_no_unhashable_aux :
    ∀ n : Nat,
      (∀ v : JVal, sizeOf v ≤ n → hasUnhashableRef v = false →
        ∀ refs, ∃ out, collect_schema_refs v refs = Except.ok out) ∧
      (∀ fields : List (String × JVal), sizeOf fields ≤ n →
        fieldsHaveUnhashableRef fields = false →
        ∀ refs, ∃ out, collectFields fields refs = Except.ok out) ∧
      (∀ elems : List JVal, sizeOf elems ≤ n → elemsHaveUnhashableRef elems = false →
        ∀ refs, ∃ out, collectElems elems refs = Except.ok out) := by
  intro n
  induction n using Nat.strong_induction_on with
  | _ n IH =>
    refine ⟨?_, ?_, ?_⟩
    · intro v hsz hno refs
      match v with
      | JVal.obj fields =>
        have hszf : sizeOf fields < n := by
          have : sizeOf (JVal.obj fields) = 1 + sizeOf fields := by simp
          omega
        simp only [hasUnhashableRef, Bool.or_eq_false_iff] at hno
        cases hlk : lookupField fields "$ref" with
        | none =>
          have ⟨out, hout⟩ := (IH (sizeOf fields) hszf).2.1 fields le_rfl hno.2 refs
          exact ⟨out, by simp only [collect_schema_refs, hlk]; exact hout⟩
        | some r =>
          match r with
          | JVal.obj f => rw [hlk] at hno; simp at hno
          | JVal.arr e => rw [hlk] at hno; simp at hno
          | JVal.str s =>
            have ⟨out, hout⟩ :=
              (IH (sizeOf fields) hszf).2.1 fields le_rfl hno.2 (JVal.str s :: refs)
            exact ⟨out, by simp only [collect_schema_refs, hlk]; exact hout⟩
          | JVal.intNum i =>
            have ⟨out, hout⟩ :=
              (IH (sizeOf fields) hszf).2.1 fields le_rfl hno.2 (JVal.intNum i :: refs)
            exact ⟨out, by simp only [collect_schema_refs, hlk]; exact hout⟩
          | JVal.floatNum fr =>
            have ⟨out, hout⟩ :=
              (IH (sizeOf fields) hszf).2.1 fields le_rfl hno.2 (JVal.floatNum fr :: refs)
            exact ⟨out, by simp only [collect_schema_refs, hlk]; exact hout⟩
          | JVal.bool b =>
            have ⟨out, hout⟩ :=
              (IH (sizeOf fields) hszf).2.1 fields le_rfl hno.2 (JVal.bool b :: refs)
            exact ⟨out, by simp only [collect_schema_refs, hlk]; exact hout⟩
          | JVal.null =>
            have ⟨out, hout⟩ :=
              (IH (sizeOf fields) hszf).2.1 fields le_rfl hno.2 (JVal.null :: refs)
            exact ⟨out, by simp only [collect_schema_refs, hlk]; exact hout⟩
      | JVal.arr elems =>
        have hsze : sizeOf elems < n := by
          have : sizeOf (JVal.arr elems) = 1 + sizeOf elems := by simp
          omega
        simp only [hasUnhashableRef] at hno
        have ⟨out, hout⟩ := (IH (sizeOf elems) hsze).2.2 elems le_rfl hno refs
        exact ⟨out, by simp only [collect_schema_refs]; exact hout⟩
      | JVal.str s => exact ⟨refs, rfl⟩
      | JVal.intNum i => exact ⟨refs, rfl⟩
      | JVal.floatNum fr => exact ⟨refs, rfl⟩
      | JVal.bool b => exact ⟨refs, rfl⟩
      | JVal.null => exact ⟨refs, rfl⟩
    · intro fields hsz hno refs
      match fields with
      | [] => exact ⟨refs, rfl⟩
      | (k, v) :: rest =>
        have hszv : sizeOf v < n := by
          have : sizeOf ((k, v) :: rest) = 1 + (1 + sizeOf k + sizeOf v) + sizeOf rest := by
            simp
          omega
        have hszr : sizeOf rest < n := by
          have : sizeOf ((k, v) :: rest) = 1 + (1 + sizeOf k + sizeOf v) + sizeOf rest := by
            simp
          omega
        simp only [fieldsHaveUnhashableRef, Bool.or_eq_false_iff] at hno
        have ⟨out1, hout1⟩ := (IH (sizeOf v) hszv).1 v le_rfl hno.1 refs
        have ⟨out2, hout2⟩ := (IH (sizeOf rest) hszr).2.1 rest le_rfl hno.2 out1
        exact ⟨out2, by simp only [collectFields, hout1]; exact hout2⟩
    · intro elems hsz hno refs
      match elems with
      | [] => exact ⟨refs, rfl⟩
      | v :: rest =>
        have hszv : sizeOf v < n := by
          have : sizeOf (v :: rest) = 1 + sizeOf v + sizeOf rest := by simp
          omega
        have hszr : sizeOf rest < n := by
          have : sizeOf (v :: rest) = 1 + sizeOf v + sizeOf rest := by simp
          omega
        simp only [elemsHaveUnhashableRef, Bool.or_eq_false_iff] at hno
        have ⟨out1, hout1⟩ := (IH (sizeOf v) hszv).1 v le_rfl hno.1 refs
        have ⟨out2, hout2⟩ := (IH (sizeOf rest) hszr).2.2 rest le_rfl hno.2 out1
        exact ⟨out2, by simp only [collectElems, hout1]; exact hout2⟩

theorem collect_ok_of_no_unhashable (v : JVal) (refs : List JVal)
    (h : hasUnhashableRef v = false) : ∃ out, collect_schema_refs v refs = Except.ok out :=
  (collect_ok_of_no_unhashable_aux (sizeOf v)).1 v le_rfl h refs

theorem refs_contain_str_cons (r : JVal) (refs : List JVal) (s : String) :
    refs_contain_str (r :: refs) s =
      ((match r with | JVal.str t => t == s | _ => false) || refs_contain_str refs s) := by
  simp [refs_contain_str]

theorem hashable_of_ref_lookup {fields : List (String × JVal)} {r : JVal}
    (hd : distinct_keys (fields.map Prod.fst) = true)
    (hlk : lookupField fields "$ref" = some r) (hh : jval_hashable r = true) :
    ∀ p ∈ fields, p.1 = "$ref" → jval_hashable p.2 = true := by
  intro p hp hpk
  have hlk2 : lookupField fields p.1 = some p.2 := lookupField_of_mem_distinct hd hp
  rw [hpk, hlk] at hlk2
  injection hlk2 with hv
  rw [← hv]
  exact hh

theorem collect_index_equiv_aux :
    ∀ n : Nat,
      (∀ v : JVal, sizeOf v ≤ n → ∀ refs out s, wf_json v = true →
        collect_schema_refs v refs = Except.ok out →
        refs_contain_str out s =
          (refs_contain_str refs s || refs_contain_str (claim_ref_index v) s)) ∧
      (∀ fields : List (String × JVal), sizeOf fields ≤ n → ∀ refs out s,
        wfFields fields = true →
        (∀ p ∈ fields, p.1 = "$ref" → jval_hashable p.2 = true) →
        collectFields fields refs = Except.ok out →
        refs_contain_str out s =
          (refs_contain_str refs s || refs_contain_str (claimIndexFields fields) s)) ∧
      (∀ elems : List JVal, sizeOf elems ≤ n → ∀ refs out s, wfElems elems = true →
        collectElems elems refs = Except.ok out →
        refs_contain_str out s =
          (refs_contain_str refs s || refs_contain_str (claimIndexElems elems) s)) := by
  intro n
  induction n using Nat.strong_induction_on with
  | _ n IH =>
    refine ⟨?_, ?_, ?_⟩
    · intro v hsz refs out s hwf hcol
      match v with
      | JVal.obj fields =>
        have hszf : sizeOf fields < n := by
          have : sizeOf (JVal.obj fields) = 1 + sizeOf fields := by simp
          omega
        simp only [wf_json, Bool.and_eq_true] at hwf
        cases hlk : lookupField fields "$ref" with
        | none =>
          simp only [collect_schema_refs, hlk] at hcol
          have hcond : ∀ p ∈ fields, p.1 = "$ref" → jval_hashable p.2 = true := by
            intro p hp hpk
            exact absurd hpk (lookupField_eq_none hlk p hp)
          have := (IH (sizeOf fields) hszf).2.1 fields le_rfl refs out s hwf.2 hcond hcol
          simp only [claim_ref_index, hlk, List.nil_append]
          exact this
        | some r =>
          match r with
          | JVal.obj f =>
            simp only [collect_schema_refs, hlk] at hcol
            exact absurd hcol (by simp)
          | JVal.arr e =>
            simp only [collect_schema_refs, hlk] at hcol
            exact absurd hcol (by simp)
          | JVal.str t =>
            simp only [collect_schema_refs, hlk] at hcol
            have hcond := hashable_of_ref_lookup hwf.1 hlk (by rfl)
            have := (IH (sizeOf fields) hszf).2.1 fields le_rfl
              (JVal.str t :: refs) out s hwf.2 hcond hcol
            rw [this, refs_contain_str_cons]
            simp only [claim_ref_index, hlk, List.singleton_append, refs_contain_str_cons]
            simp [Bool.or_comm, Bool.or_left_comm, Bool.or_assoc]
          | JVal.intNum i =>
            simp only [collect_schema_refs, hlk] at hcol
            have hcond := hashable_of_ref_lookup hwf.1 hlk (by rfl)
            have := (IH (sizeOf fields) hszf).2.1 fields le_rfl
              (JVal.intNum i :: refs) out s hwf.2 hcond hcol
            rw [this, refs_contain_str_cons]
            simp only [claim_ref_index, hlk, List.singleton_append, refs_contain_str_cons]
            simp [Bool.or_comm, Bool.or_left_comm, Bool.or_assoc]
          | JVal.floatNum fr =>
            simp only [collect_schema_refs, hlk] at hcol
            have hcond := hashable_of_ref_lookup hwf.1 hlk (by rfl)
            have := (IH (sizeOf fields) hszf).2.1 fields le_rfl
              (JVal.floatNum fr :: refs) out s hwf.2 hcond hcol
            rw [this, refs_contain_str_cons]
            simp only [claim_ref_index, hlk, List.singleton_append, refs_contain_str_cons]
            simp [Bool.or_comm, Bool.or_left_comm, Bool.or_assoc]
          | JVal.bool b =>
            simp only [collect_schema_refs, hlk] at hcol
            have hcond := hashable_of_ref_lookup hwf.1 hlk (by rfl)
            have := (IH (sizeOf fields) hszf).2.1 fields le_rfl
              (JVal.bool b :: refs) out s hwf.2 hcond hcol
            rw [this, refs_contain_str_cons]
            simp only [claim_ref_index, hlk, List.singleton_append, refs_contain_str_cons]
            simp [Bool.or_comm, Bool.or_left_comm, Bool.or_assoc]
          | JVal.null =>
            simp only [collect_schema_refs, hlk] at hcol
            have hcond := hashable_of_ref_lookup hwf.1 hlk (by rfl)
            have := (IH (sizeOf fields) hszf).2.1 fields le_rfl
              (JVal.null :: refs) out s hwf.2 hcond hcol
            rw [this, refs_contain_str_cons]
            simp only [claim_ref_index, hlk, List.singleton_append, refs_contain_str_cons]
            simp [Bool.or_comm, Bool.or_left_comm, Bool.or_assoc]
      | JVal.arr elems =>
        have hsze : sizeOf elems < n := by
          have : sizeOf (JVal.arr elems) = 1 + sizeOf elems := by simp
          omega
        simp only [wf_json] at hwf
        simp only [collect_schema_refs] at hcol
        have := (IH (sizeOf elems) hsze).2.2 elems le_rfl refs out s hwf hcol
        simpa only [claim_ref_index] using this
      | JVal.str t =>
        simp only [collect_schema_refs] at hcol
        cases hcol
        simp [claim_ref_index, refs_contain_str]
      | JVal.intNum i =>
        simp only [collect_schema_refs] at hcol
        cases hcol
        simp [claim_ref_index, refs_contain_str]
      | JVal.floatNum fr =>
        simp only [collect_schema_refs] at hcol
        cases hcol
        simp [claim_ref_index, refs_contain_str]
      | JVal.bool b =>
        simp only [collect_schema_refs] at hcol
        cases hcol
        simp [claim_ref_index, refs_contain_str]
      | JVal.null =>
        simp only [collect_schema_refs] at hcol
        cases hcol
        simp [claim_ref_index, refs_contain_str]
    · intro fields hsz refs out s hwf hcond hcol
      match fields with
      | [] =>
        simp only [collectFields] at hcol
        cases hcol
        simp [claimIndexFields, refs_contain_str]
      | (k, v) :: rest =>
        have hszv : sizeOf v < n := by
          have : sizeOf ((k, v) :: rest) = 1 + (1 + sizeOf k + sizeOf v) + sizeOf rest := by
            simp
          omega
        have hszr : sizeOf rest < n := by
          have : sizeOf ((k, v) :: rest) = 1 + (1 + sizeOf k + sizeOf v) + sizeOf rest := by
            simp
          omega
        simp only [wfFields, Bool.and_eq_true] at hwf
        have hcondr : ∀ p ∈ rest, p.1 = "$ref" → jval_hashable p.2 = true := by
          intro p hp
          exact hcond p (List.mem_cons_of_mem _ hp)
        cases hcv : collect_schema_refs v refs with
        | error e =>
          simp only [collectFields, hcv] at hcol
          exact absurd hcol (by simp)
        | ok refs1 =>
          simp only [collectFields, hcv] at hcol
          by_cases hk : (k == "$ref") = true
          · have hkk : k = "$ref" := by simpa using hk
            have hhash : jval_hashable v = true :=
              hcond (k, v) (List.mem_cons_self _ _) hkk
            rw [collect_leaf hhash] at hcv
            injection hcv with hrefs
            rw [← hrefs] at hcol
            have := (IH (sizeOf rest) hszr).2.1 rest le_rfl refs out s hwf.2 hcondr hcol
            simpa only [claimIndexFields, hk, if_true, List.nil_append] using this
          · have h1 := (IH (sizeOf v) hszv).1 v le_rfl refs refs1 s hwf.1 hcv
            have h2 := (IH (sizeOf rest) hszr).2.1 rest le_rfl refs1 out s hwf.2 hcondr hcol
            rw [h2, h1]
            simp only [claimIndexFields, hk, if_false, refs_contain_str_append]
            simp [Bool.or_assoc]
    · intro elems hsz refs out s hwf hcol
      match elems with
      | [] =>
        simp only [collectElems] at hcol
        cases hcol
        simp [claimIndexElems, refs_contain_str]
      | v :: rest =>
        have hszv : sizeOf v < n := by
          have : sizeOf (v :: rest) = 1 + sizeOf v + sizeOf rest := by simp
          omega
        have hszr : sizeOf rest < n := by
          have : sizeOf (v :: rest) = 1 + sizeOf v + sizeOf rest := by simp
          omega
        simp only [wfElems, Bool.and_eq_true] at hwf
        cases hcv : collect_schema_refs v refs with
        | error e =>
          simp only [collectElems, hcv] at hcol
          exact absurd hcol (by simp)
        | ok refs1 =>
          simp only [collectElems, hcv] at hcol
          have h1 := (IH (sizeOf v) hszv).1 v le_rfl refs refs1 s hwf.1 hcv
          have h2 := (IH (sizeOf rest) hszr).2.2 rest le_rfl refs1 out s hwf.2 hcol
          rw [h2, h1]
          simp only [claimIndexElems, refs_contain_str_append]
          simp [Bool.or_assoc]

theorem collect_index_equiv {spec : List (String × JVal)} {out : List JVal} {s : String}
    (hwf : wf_json (JVal.obj spec) = true)
    (hcol : collect_schema_refs (JVal.obj spec) [] = Except.ok out) :
    refs_contain_str out s = refs_contain_str (claim_ref_index (JVal.obj spec)) s := by
  have := (collect_index_equiv_aux (sizeOf (JVal.obj spec))).1 (JVal.obj spec) le_rfl
    [] out s hwf hcol
  simpa [refs_contain_str] using this

/-! ## Shape of the findings each check can emit -/

theorem check_version_shape {spec : List (String × JVal)} {f : Finding}
    (h : f ∈ check_version spec) : f.severity = "error" ∧ f.path = "openapi" := by
  unfold check_version at h
  cases hlk : lookupField spec "openapi" with
  | none =>
    simp only [hlk] at h
    simp at h
    subst h
    exact ⟨rfl, rfl⟩
  | some v =>
    simp only [hlk] at h
    by_cases hc : (py_startswith (pyStr v) "3.0" || py_startswith (pyStr v) "3.1") = true
    · simp [hc] at h
    · simp [hc] at h
      subst h
      exact ⟨rfl, rfl⟩

theorem check_version_message {spec : List (String × JVal)} {f : Finding} {v : JVal}
    (hv : lookupField spec "openapi" = some v) (h : f ∈ check_version spec) :
    f = Finding.mk "error" "openapi"
      ("Unsupported OpenAPI version: " ++ pyStr v ++ " (expected 3.0.x or 3.1.x)") ∧
    (py_startswith (pyStr v) "3.0" || py_startswith (pyStr v) "3.1") = false := by
  unfold check_version at h
  simp only [hv] at h
  by_cases hc : (py_startswith (pyStr v) "3.0" || py_startswith (pyStr v) "3.1") = true
  · simp [hc] at h
  · simp [hc] at h
    exact ⟨h, by simpa using hc⟩

theorem check_version_absent {spec : List (String × JVal)}
    (hv : lookupField spec "openapi" = none) :
    check_version spec =
      [Finding.mk "error" "openapi" "Missing required 'openapi' version field"] := by
  unfold check_version
  rw [hv]

theorem check_info_shape {spec : List (String × JVal)} {f : Finding}
    (h : f ∈ check_info spec) :
    f.severity = "error" ∧ (f.path = "info" ∨ f.path = "info.title") := by
  unfold check_info at h
  split at h
  · split at h
    · simp at h
      subst h
      exact ⟨rfl, Or.inr rfl⟩
    · split at h
      · simp at h
        subst h
        exact ⟨rfl, Or.inr rfl⟩
      · simp at h
  · simp at h
    subst h
    exact ⟨rfl, Or.inl rfl⟩

theorem check_paths_presence_shape {spec : List (String × JVal)} {f : Finding}
    (h : f ∈ check_paths_presence spec) : f.severity = "error" ∧ f.path = "paths" := by
  unfold check_paths_presence at h
  split at h
  · simp at h
    subst h
    exact ⟨rfl, rfl⟩
  · simp at h

theorem check_methods_mem_elim {spec : List (String × JVal)} {f : Finding}
    (h : f ∈ check_methods spec) :
    ∃ pf p it itf m w, (lookupField spec "paths").getD (JVal.obj []) = JVal.obj pf ∧
      (p, it) ∈ pf ∧ it = JVal.obj itf ∧ (m, w) ∈ itf ∧
      reserved_path_item_keys.contains m = false ∧
      VALID_HTTP_METHODS.contains (pyLower m) = false ∧
      f = Finding.mk "error" ("paths." ++ p ++ "." ++ m)
        ("Invalid HTTP method: '" ++ m ++ "'") := by
  unfold check_methods at h
  split at h
  case h_2 => simp at h
  case h_1 pf hpv =>
    rw [List.mem_flatMap] at h
    obtain ⟨pe, hpe, h⟩ := h
    split at h
    case h_2 => simp at h
    case h_1 itf hit =>
      rw [List.mem_flatMap] at h
      obtain ⟨me, hme, h⟩ := h
      split at h
      · simp at h
      · split at h
        · simp at h
          subst h
          exact ⟨pf, pe.1, pe.2, itf, me.1, me.2, hpv, hpe, hit, hme,
            by rename_i hres _; simpa using hres,
            by rename_i hval; simpa using hval, rfl⟩
        · simp at h

theorem check_methods_mem_intro {spec : List (String × JVal)} {pf : List (String × JVal)}
    {p m : String} {itf : List (String × JVal)} {w : JVal}
    (hpv : (lookupField spec "paths").getD (JVal.obj []) = JVal.obj pf)
    (hp : (p, JVal.obj itf) ∈ pf) (hm : (m, w) ∈ itf)
    (hres : reserved_path_item_keys.contains m = false)
    (hval : VALID_HTTP_METHODS.contains (pyLower m) = false) :
    Finding.mk "error" ("paths." ++ p ++ "." ++ m) ("Invalid HTTP method: '" ++ m ++ "'")
      ∈ check_methods spec := by
  unfold check_methods
  rw [hpv]
  refine List.mem_flatMap.mpr ⟨(p, JVal.obj itf), hp, ?_⟩
  refine List.mem_flatMap.mpr ⟨(m, w), hm, ?_⟩
  have h1 : m ∉ reserved_path_item_keys := by simpa using hres
  have h2 : pyLower m ∉ VALID_HTTP_METHODS := by simpa using hval
  simp [h1, h2]

theorem check_info_description_shape {spec : List (String × JVal)} {f : Finding}
    (h : f ∈ check_info_description spec) :
    f.severity = "warning" ∧ f.path = "info.description" := by
  unfold check_info_description at h
  split at h
  · split at h
    · simp at h
      subst h
      exact ⟨rfl, rfl⟩
    · split at h
      · simp at h
        subst h
        exact ⟨rfl, rfl⟩
      · simp at h
  · simp at h

theorem operation_warnings_shape {op_path : String} {opFields : List (String × JVal)}
    {f : Finding} (h : f ∈ operation_warnings op_path opFields) :
    f.severity = "warning" ∧
      (f.path = op_path ∨ ∃ sc, f.path = op_path ++ ".responses." ++ sc) := by
  unfold operation_warnings at h
  rw [List.mem_append] at h
  rcases h with h | h
  · split at h
    · simp at h
      subst h
      exact ⟨rfl, Or.inl rfl⟩
    · simp at h
  · split at h
    case h_2 => simp at h
    case h_1 rf hrf =>
      rw [List.mem_flatMap] at h
      obtain ⟨re, hre, h⟩ := h
      split at h
      case h_2 => simp at h
      case h_1 rof hrof =>
        split at h
        · simp at h
          subst h
          exact ⟨rfl, Or.inr ⟨re.1, rfl⟩⟩
        · simp at h

theorem check_operations_shape {spec : List (String × JVal)} {f : Finding}
    (h : f ∈ check_operations spec) :
    f.severity = "warning" ∧ ∃ r, f.path = "paths." ++ r := by
  unfold check_operations at h
  split at h
  case h_2 => simp at h
  case h_1 pf hpv =>
    rw [List.mem_flatMap] at h
    obtain ⟨pe, hpe, h⟩ := h
    split at h
    case h_2 => simp at h
    case h_1 itf hit =>
      rw [List.mem_flatMap] at h
      obtain ⟨me, hme, h⟩ := h
      split at h
      · simp at h
      · split at h
        case h_2 => simp at h
        case h_1 opf hopf =>
          have hs := operation_warnings_shape h
          refine ⟨hs.1, ?_⟩
          rcases hs.2 with hp | ⟨sc, hp⟩
          · exact ⟨pe.1 ++ "." ++ me.1, by rw [hp]; simp [String.append_assoc]⟩
          · exact ⟨pe.1 ++ "." ++ me.1 ++ ".responses." ++ sc,
              by rw [hp]; simp [String.append_assoc]⟩

theorem check_naming_shape {spec : List (String × JVal)} {f : Finding}
    (h : f ∈ check_naming spec) :
    f = Finding.mk "warning" "paths"
      "Inconsistent path naming: mix of camelCase and snake_case detected" := by
  unfold check_naming at h
  split at h
  · split at h
    · simpa using h
    · simp at h
  · simp at h

theorem check_unused_ok_mem {spec : List (String × JVal)} {u : List Finding} {f : Finding}
    (hok : check_unused spec = Except.ok u) (h : f ∈ u) :
    ∃ cf sf all_refs S it,
      (lookupField spec "components").getD (JVal.obj []) = JVal.obj cf ∧
      (lookupField cf "schemas").getD (JVal.obj []) = JVal.obj sf ∧
      collect_schema_refs (JVal.obj spec) [] = Except.ok all_refs ∧
      (S, it) ∈ sf ∧
      refs_contain_str all_refs ("#/components/schemas/" ++ S) = false ∧
      f = Finding.mk "warning" ("components.schemas." ++ S)
        ("Schema '" ++ S ++ "' is defined but never referenced") := by
  unfold check_unused at hok
  split at hok
  case h_2 =>
    injection hok with hu
    rw [← hu] at h
    simp at h
  case h_1 cf hcf =>
    split at hok
    case h_2 =>
      injection hok with hu
      rw [← hu] at h
      simp at h
    case h_1 sf hsf =>
      split at hok
      · injection hok with hu
        rw [← hu] at h
        simp at h
      · split at hok
        case h_1 e hcoll => exact absurd hok (by simp)
        case h_2 all_refs hcoll =>
          injection hok with hu
          rw [← hu] at h
          rw [List.mem_flatMap] at h
          obtain ⟨kv, hkv, h⟩ := h
          by_cases hnc : refs_contain_str all_refs ("#/components/schemas/" ++ kv.1) = true
          · simp [hnc] at h
          · simp [hnc] at h
            subst h
            exact ⟨cf, sf, all_refs, kv.1, kv.2, hcf, hsf, hcoll, hkv,
              by simpa using hnc, rfl⟩

theorem check_unused_mem_intro {spec : List (String × JVal)} {cf sf : List (String × JVal)}
    {all_refs : List JVal} {u : List Finding} {S : String} {it : JVal}
    (hcf : (lookupField spec "components").getD (JVal.obj []) = JVal.obj cf)
    (hsf : (lookupField cf "schemas").getD (JVal.obj []) = JVal.obj sf)
    (hcoll : collect_schema_refs (JVal.obj spec) [] = Except.ok all_refs)
    (hok : check_unused spec = Except.ok u)
    (hkv : (S, it) ∈ sf)
    (hnc : refs_contain_str all_refs ("#/components/schemas/" ++ S) = false) :
    Finding.mk "warning" ("components.schemas." ++ S)
      ("Schema '" ++ S ++ "' is defined but never referenced") ∈ u := by
  have hne : sf.isEmpty = false := by
    cases sf with
    | nil => simp at hkv
    | cons a rest => rfl
  unfold check_unused at hok
  simp only [hcf, hsf, hne, Bool.false_eq_true, if_false, hcoll] at hok
  injection hok with hu
  rw [← hu]
  refine List.mem_flatMap.mpr ⟨(S, it), hkv, ?_⟩
  simp [hnc]

theorem validate_ok_decomp {spec : List (String × JVal)} {fs : List Finding}
    (h : validate_spec spec = Except.ok fs) :
    ∃ u, check_unused spec = Except.ok u ∧
      fs = check_version spec ++ check_info spec ++ check_paths_presence spec ++
        check_methods spec ++ check_info_description spec ++ check_operations spec ++
        check_naming spec ++ u := by
  unfold validate_spec at h
  split at h
  · exact absurd h (by simp)
  · rename_i u hu
    injection h with hfs
    exact ⟨u, hu, hfs.symm⟩

/-! ## Claim theorems -/

theorem mem_zip_self {α : Type} {l : List α} {p : α × α} (h : p ∈ l.zip l) : p.1 = p.2 := by
  induction l with
  | nil => simp at h
  | cons a rest ih =>
    rw [List.zip_cons_cons] at h
    rcases List.mem_cons.mp h with heq | hmem
    · subst heq; rfl
    · exact ih hmem

/-- A well-formed valid document: used as the concrete input of several
witnesses. -/
def demo_doc : List (String × JVal) :=
  [("openapi", JVal.str "3.0.0"),
   ("info", JVal.obj [("title", JVal.str "T"), ("description", JVal.str "d")]),
   ("paths", JVal.obj [("/x", JVal.obj [("get", JVal.obj [("summary", JVal.str "s")])])])]

/-- The document of the C1 counterexample: `components.schemas` is a
non-empty object and a `$ref` key maps to a list, so `refs.add` receives an
unhashable value. -/
def c1_doc : List (String × JVal) :=
  [("components", JVal.obj [("schemas", JVal.obj [("A", JVal.null)])]),
   ("x", JVal.obj [("$ref", JVal.arr [])])]

/-- C1 counterexample: a JSON-object document on which `validate_spec` does
not return a list of findings but raises a `TypeError` (the claim asserts
this can happen for no JSON-object input). -/
theorem validate_spec_raises_on_list_ref :
    validate_spec c1_doc = Except.error "TypeError: unhashable type: 'list'" := rfl

/-- C1 (amended): for every JSON-object document in which no `$ref` key
reachable by the traversal maps to a list or an object, `validate_spec`
completes and returns a list of findings; every check tolerates wrong-typed
or absent fields, and no missing section prevents the remaining checks from
running. -/
theorem validate_spec_ok_of_no_unhashable_ref (spec : List (String × JVal))
    (h : hasUnhashableRef (JVal.obj spec) = false) :
    ∃ fs, validate_spec spec = Except.ok fs := by
  obtain ⟨out, hout⟩ := collect_ok_of_no_unhashable (JVal.obj spec) [] h
  have hu : ∃ u, check_unused spec = Except.ok u := by
    cases hc : (lookupField spec "components").getD (JVal.obj []) with
    | obj cf =>
      cases hs : (lookupField cf "schemas").getD (JVal.obj []) with
      | obj sf =>
        by_cases hne : sf.isEmpty = true
        · exact ⟨[], by simp only [check_unused, hc, hs, hne, if_true]⟩
        · have hne2 : sf.isEmpty = false := by simpa using hne
          refine ⟨sf.flatMap fun kv =>
            if !refs_contain_str out ("#/components/schemas/" ++ kv.1) then
              [Finding.mk "warning" ("components.schemas." ++ kv.1)
                ("Schema '" ++ kv.1 ++ "' is defined but never referenced")]
            else [], ?_⟩
          simp only [check_unused, hc, hs, hne2, Bool.false_eq_true, if_false, hout]
      | arr e => exact ⟨[], by simp only [check_unused, hc, hs]⟩
      | str s => exact ⟨[], by simp only [check_unused, hc, hs]⟩
      | intNum i => exact ⟨[], by simp only [check_unused, hc, hs]⟩
      | floatNum r => exact ⟨[], by simp only [check_unused, hc, hs]⟩
      | bool b => exact ⟨[], by simp only [check_unused, hc, hs]⟩
      | null => exact ⟨[], by simp only [check_unused, hc, hs]⟩
    | arr e => exact ⟨[], by simp only [check_unused, hc]⟩
    | str s => exact ⟨[], by simp only [check_unused, hc]⟩
    | intNum i => exact ⟨[], by simp only [check_unused, hc]⟩
    | floatNum r => exact ⟨[], by simp only [check_unused, hc]⟩
    | bool b => exact ⟨[], by simp only [check_unused, hc]⟩
    | null => exact ⟨[], by simp only [check_unused, hc]⟩
  obtain ⟨u, hu⟩ := hu
  refine ⟨check_version spec ++ check_info spec ++ check_paths_presence spec ++
    check_methods spec ++ check_info_description spec ++ check_operations spec ++
    check_naming spec ++ u, ?_⟩
  unfold validate_spec
  rw [hu]

theorem validate_spec_ok_of_no_unhashable_ref_witness :
    hasUnhashableRef (JVal.obj demo_doc) = false ∧
      ∃ fs, validate_spec demo_doc = Except.ok fs :=
  ⟨rfl, validate_spec_ok_of_no_unhashable_ref demo_doc rfl⟩

/-- C4: evaluation is deterministic and idempotent: two invocations of
`validate_spec` on the same document return list-equal ordered sequences of
findings, equal element by element in severity, path and message. -/
theorem validate_spec_deterministic (spec : List (String × JVal)) (fs1 fs2 : List Finding)
    (h1 : validate_spec spec = Except.ok fs1) (h2 : validate_spec spec = Except.ok fs2) :
    fs1 = fs2 ∧ fs1.length = fs2.length ∧
      ∀ p ∈ fs1.zip fs2, p.1.severity = p.2.severity ∧ p.1.path = p.2.path ∧
        p.1.message = p.2.message := by
  have he : fs1 = fs2 := by
    rw [h1] at h2
    injection h2
  subst he
  refine ⟨rfl, rfl, ?_⟩
  intro p hp
  have hpe : p.1 = p.2 := mem_zip_self hp
  rw [hpe]
  exact ⟨rfl, rfl, rfl⟩

theorem validate_spec_deterministic_witness :
    ∃ fs, validate_spec demo_doc = Except.ok fs ∧ fs.length = fs.length := by
  refine ⟨_, rfl, ?_⟩
  exact (validate_spec_deterministic demo_doc _ _ rfl rfl).2.1

theorem count_warnings_promote (fs : List Finding) :
    count_warnings (promote_warnings fs) = 0 := by
  induction fs with
  | nil => rfl
  | cons a rest ih =>
    simp only [promote_warnings, List.map_cons, count_warnings, List.filter_cons] at ih ⊢
    by_cases hw : (a.severity == "warning") = true
    · simp only [hw, if_true]
      simp only [show (("error" : String) == "warning") = false from rfl,
        Bool.false_eq_true, if_false]
      exact ih
    · have hw2 : (a.severity == "warning") = false := by simpa using hw
      simp only [hw2, Bool.false_eq_true, if_false]
      exact ih

theorem count_errors_le_map (g : Finding → Finding)
    (hg : ∀ f, f.severity = "error" → (g f).severity = "error") (fs : List Finding) :
    count_errors fs ≤ count_errors (fs.map g) := by
  induction fs with
  | nil => exact Nat.le_refl 0
  | cons a rest ih =>
    simp only [count_errors, List.map_cons, List.filter_cons] at ih ⊢
    by_cases he : (a.severity == "error") = true
    · have hge : ((g a).severity == "error") = true := by
        have := hg a (by simpa using he)
        simp [this]
      simp only [he, hge, if_true, List.length_cons]
      exact Nat.succ_le_succ ih
    · have he2 : (a.severity == "error") = false := by simpa using he
      simp only [he2, Bool.false_eq_true, if_false]
      by_cases hge : ((g a).severity == "error") = true
      · simp only [hge, if_true, List.length_cons]
        exact Nat.le_trans ih (Nat.le_succ _)
      · have hge2 : ((g a).severity == "error") = false := by simpa using hge
        simp only [hge2, Bool.false_eq_true, if_false]
        exact ih

/-- C5: strict-mode promotion rewrites every warning finding to an error
finding preserving path, message and position, leaves every other finding
unchanged, and afterwards the warning count is zero while the error count has
not decreased. -/
theorem strict_promotion_correct (findings : List Finding) :
    (promote_warnings findings).length = findings.length ∧
    (∀ p ∈ findings.zip (promote_warnings findings),
      p.2.path = p.1.path ∧ p.2.message = p.1.message ∧
      p.2.severity = (if p.1.severity == "warning" then "error" else p.1.severity)) ∧
    count_warnings (promote_warnings findings) = 0 ∧
    count_errors findings ≤ count_errors (promote_warnings findings) := by
  refine ⟨by simp [promote_warnings], ?_, count_warnings_promote findings, ?_⟩
  · induction findings with
    | nil => intro p hp; simp [promote_warnings] at hp
    | cons a rest ih =>
      intro p hp
      simp only [promote_warnings, List.map_cons, List.zip_cons_cons] at hp
      rcases List.mem_cons.mp hp with heq | hmem
      · subst heq
        by_cases hw : (a.severity == "warning") = true
        · simp [hw]
        · simp [hw]
      · exact ih p (by simpa [promote_warnings] using hmem)
  · refine count_errors_le_map _ (fun f hf => ?_) findings
    have : (f.severity == "warning") = false := by simp [hf]
    simp [this, hf]

theorem strict_promotion_correct_witness :
    (promote_warnings [Finding.mk "warning" "a" "b", Finding.mk "error" "c" "d"]).length = 2 ∧
    count_warnings (promote_warnings
      [Finding.mk "warning" "a" "b", Finding.mk "error" "c" "d"]) = 0 ∧
    (Finding.mk "error" "a" "b").path = (Finding.mk "warning" "a" "b").path := by
  have h := strict_promotion_correct [Finding.mk "warning" "a" "b", Finding.mk "error" "c" "d"]
  refine ⟨h.1, h.2.2.1, ?_⟩
  have h2 := h.2.1 (Finding.mk "warning" "a" "b", Finding.mk "error" "a" "b") (by decide)
  exact h2.1

theorem paths_dot_ne_openapi (p m : String) : "paths." ++ p ++ "." ++ m ≠ "openapi" := by
  intro h
  have h2 := congrArg String.data h
  simp [String.data_append] at h2

theorem check_methods_shape {spec : List (String × JVal)} {f : Finding}
    (h : f ∈ check_methods spec) :
    f.severity = "error" ∧ (∃ r, f.path = "paths." ++ r) ∧
      ∃ m, f.message = "Invalid HTTP method: '" ++ m ++ "'" := by
  obtain ⟨pf, p, it, itf, m, w, hpv, hp, hit, hm, hres, hval, hf⟩ := check_methods_mem_elim h
  subst hf
  refine ⟨rfl, ⟨p ++ ("." ++ m), ?_⟩, ⟨m, rfl⟩⟩
  simp [String.append_assoc]

/-- In a completed evaluation the findings located at path `openapi` are
exactly the findings of the version check. -/
theorem openapi_findings {spec : List (String × JVal)} {fs : List Finding}
    (h : validate_spec spec = Except.ok fs) :
    fs.filter (fun f => f.path == "openapi") = check_version spec := by
  obtain ⟨u, hu, hfs⟩ := validate_ok_decomp h
  subst hfs
  repeat rw [List.filter_append]
  rw [List.filter_eq_self.mpr (fun f hf => by rw [(check_version_shape hf).2]; rfl)]
  rw [List.filter_eq_nil_iff.mpr (fun f hf => by
    rcases (check_info_shape hf).2 with hp | hp <;> simp [hp])]
  rw [List.filter_eq_nil_iff.mpr (fun f hf => by
    rw [(check_paths_presence_shape hf).2]; simp)]
  rw [List.filter_eq_nil_iff.mpr (fun f hf => by
    obtain ⟨r, hr⟩ := (check_methods_shape hf).2.1
    rw [hr]
    simpa using paths_prefix_ne_openapi r)]
  rw [List.filter_eq_nil_iff.mpr (fun f hf => by
    rw [(check_info_description_shape hf).2]; simp)]
  rw [List.filter_eq_nil_iff.mpr (fun f hf => by
    obtain ⟨r, hr⟩ := (check_operations_shape hf).2
    rw [hr]
    simpa using paths_prefix_ne_openapi r)]
  rw [List.filter_eq_nil_iff.mpr (fun f hf => by
    rw [show f.path = "paths" from congrArg Finding.path (check_naming_shape hf)]; simp)]
  rw [List.filter_eq_nil_iff.mpr (fun f hf => by
    obtain ⟨cf, sf, ar, S, it, _, _, _, _, _, hf2⟩ := check_unused_ok_mem hu hf
    rw [hf2]
    simpa using schemas_prefix_ne_openapi S)]
  simp

/-- C6: a document without a top-level `openapi` key gets the missing-version
error at path `openapi` while every other check still contributes its
findings; a document with an `openapi` value gets exactly one version error
(naming the unsupported version and the expected prefixes) precisely when the
value's string form starts with neither `3.0` nor `3.1`. -/
theorem version_check_correct (spec : List (String × JVal)) (fs : List Finding)
    (h : validate_spec spec = Except.ok fs) :
    (hasField spec "openapi" = false →
      ∃ u, check_unused spec = Except.ok u ∧
        fs = Finding.mk "error" "openapi" "Missing required 'openapi' version field" ::
          (check_info spec ++ check_paths_presence spec ++ check_methods spec ++
           check_info_description spec ++ check_operations spec ++ check_naming spec ++ u)) ∧
    (∀ v, lookupField spec "openapi" = some v →
      ((fs.filter fun f => f.path == "openapi").length =
        if py_startswith (pyStr v) "3.0" || py_startswith (pyStr v) "3.1" then 0 else 1) ∧
      ∀ f ∈ fs, f.path = "openapi" →
        f = Finding.mk "error" "openapi"
          ("Unsupported OpenAPI version: " ++ pyStr v ++ " (expected 3.0.x or 3.1.x)")) := by
  constructor
  · intro habs
    obtain ⟨u, hu, hfs⟩ := validate_ok_decomp h
    have hnone : lookupField spec "openapi" = none := hasField_false_iff.mp habs
    refine ⟨u, hu, ?_⟩
    rw [hfs, check_version_absent hnone]
    simp [List.append_assoc]
  · intro v hv
    have hfil := openapi_findings h
    constructor
    · rw [hfil]
      unfold check_version
      rw [hv]
      by_cases hc : (py_startswith (pyStr v) "3.0" || py_startswith (pyStr v) "3.1") = true
      · simp [hc]
      · have hc2 : (py_startswith (pyStr v) "3.0" || py_startswith (pyStr v) "3.1") = false := by
          simpa using hc
        simp [hc2]
    · intro f hf hpath
      have hmem : f ∈ fs.filter (fun f => f.path == "openapi") :=
        List.mem_filter.mpr ⟨hf, by rw [hpath]; rfl⟩
      rw [hfil] at hmem
      exact (check_version_message hv hmem).1

def c6_missing_doc : List (String × JVal) :=
  [("info", JVal.obj [("title", JVal.str "T"), ("description", JVal.str "d")]),
   ("paths", JVal.obj [])]

def c6_unsupported_doc : List (String × JVal) :=
  [("openapi", JVal.str "2.0"),
   ("info", JVal.obj [("title", JVal.str "T"), ("description", JVal.str "d")]),
   ("paths", JVal.obj [])]

theorem version_check_correct_witness :
    (∃ fs, validate_spec c6_missing_doc = Except.ok fs ∧
      ∃ u, check_unused c6_missing_doc = Except.ok u ∧
        fs = Finding.mk "error" "openapi" "Missing required 'openapi' version field" ::
          (check_info c6_missing_doc ++ check_paths_presence c6_missing_doc ++
           check_methods c6_missing_doc ++ check_info_description c6_missing_doc ++
           check_operations c6_missing_doc ++ check_naming c6_missing_doc ++ u)) ∧
    (∃ fs, validate_spec c6_unsupported_doc = Except.ok fs ∧
      (fs.filter fun f => f.path == "openapi").length = 1) := by
  constructor
  · exact ⟨_, rfl, (version_check_correct c6_missing_doc _ rfl).1 rfl⟩
  · refine ⟨_, rfl, ?_⟩
    have := ((version_check_correct c6_unsupported_doc _ rfl).2 (JVal.str "2.0") rfl).1
    simpa using this

/-- C9: the version check coerces a non-`str` `openapi` value with `str(...)`
before testing the prefix: the JSON number `3.0` (a Python float rendering as
`"3.0"`) passes the check and produces no finding at path `openapi`, while
`null` (Python `None`) produces a version error whose message names the
coerced text `None`. -/
theorem version_coercion_behavior (spec : List (String × JVal)) (fs : List Finding)
    (h : validate_spec spec = Except.ok fs) :
    (lookupField spec "openapi" = some (JVal.floatNum "3.0") →
      ∀ f ∈ fs, f.path ≠ "openapi") ∧
    (lookupField spec "openapi" = some JVal.null →
      Finding.mk "error" "openapi"
        "Unsupported OpenAPI version: None (expected 3.0.x or 3.1.x)" ∈ fs) := by
  constructor
  · intro hv f hf hpath
    have hmem : f ∈ fs.filter (fun f => f.path == "openapi") :=
      List.mem_filter.mpr ⟨hf, by rw [hpath]; rfl⟩
    rw [openapi_findings h] at hmem
    unfold check_version at hmem
    rw [hv] at hmem
    simp at hmem
    exact absurd hmem.1.1 (by decide)
  · intro hv
    have hcv : check_version spec =
        [Finding.mk "error" "openapi"
          "Unsupported OpenAPI version: None (expected 3.0.x or 3.1.x)"] := by
      unfold check_version
      rw [hv]
      rfl
    obtain ⟨u, hu, hfs⟩ := validate_ok_decomp h
    rw [hfs, hcv]
    simp

def c9_float_doc : List (String × JVal) :=
  [("openapi", JVal.floatNum "3.0"),
   ("info", JVal.obj [("title", JVal.str "T"), ("description", JVal.str "d")]),
   ("paths", JVal.obj [])]

def c9_null_doc : List (String × JVal) :=
  [("openapi", JVal.null),
   ("info", JVal.obj [("title", JVal.str "T"), ("description", JVal.str "d")]),
   ("paths", JVal.obj [])]

theorem version_coercion_behavior_witness :
    (∃ fs, validate_spec c9_float_doc = Except.ok fs ∧
      ∀ f ∈ fs, f.path ≠ "openapi") ∧
    (∃ fs, validate_spec c9_null_doc = Except.ok fs ∧
      Finding.mk "error" "openapi"
        "Unsupported OpenAPI version: None (expected 3.0.x or 3.1.x)" ∈ fs) := by
  constructor
  · exact ⟨_, rfl, (version_coercion_behavior c9_float_doc _ rfl).1 rfl⟩
  · exact ⟨_, rfl, (version_coercion_behavior c9_null_doc _ rfl).2 rfl⟩

/-- In a completed evaluation the warning findings located at path `paths`
are exactly the findings of the path-naming check. -/
theorem naming_findings {spec : List (String × JVal)} {fs : List Finding}
    (h : validate_spec spec = Except.ok fs) :
    fs.filter (fun f => f.severity == "warning" && f.path == "paths") =
      check_naming spec := by
  obtain ⟨u, hu, hfs⟩ := validate_ok_decomp h
  subst hfs
  repeat rw [List.filter_append]
  rw [List.filter_eq_nil_iff.mpr (fun f hf => by
    rw [(check_version_shape hf).1]; simp)]
  rw [List.filter_eq_nil_iff.mpr (fun f hf => by
    rw [(check_info_shape hf).1]; simp)]
  rw [List.filter_eq_nil_iff.mpr (fun f hf => by
    rw [(check_paths_presence_shape hf).1]; simp)]
  rw [List.filter_eq_nil_iff.mpr (fun f hf => by
    rw [(check_methods_shape hf).1]; simp)]
  rw [List.filter_eq_nil_iff.mpr (fun f hf => by
    rw [(check_info_description_shape hf).2]; simp)]
  rw [List.filter_eq_nil_iff.mpr (fun f hf => by
    obtain ⟨r, hr⟩ := (check_operations_shape hf).2
    rw [hr]
    have := paths_prefix_ne_paths r
    simp [this])]
  rw [List.filter_eq_self.mpr (fun f hf => by
    rw [check_naming_shape hf]; rfl)]
  rw [List.filter_eq_nil_iff.mpr (fun f hf => by
    obtain ⟨cf, sf, ar, S, it, _, _, _, _, _, hf2⟩ := check_unused_ok_mem hu hf
    rw [hf2]
    have := schemas_prefix_ne_paths S
    simp [this])]
  simp

/-- C2 (amended): the code classifies each path key by the FIRST segment that
is camelCase or snake_case (camelCase checked before snake_case within each
segment, later segments not scanned), and the single inconsistency warning at
path `paths` is emitted exactly when both resulting lists are non-empty. -/
theorem path_naming_warning_iff (spec : List (String × JVal)) (fs : List Finding)
    (pf : List (String × JVal))
    (h : validate_spec spec = Except.ok fs)
    (hp : lookupField spec "paths" = some (JVal.obj pf)) :
    (fs.filter fun f => f.severity == "warning" && f.path == "paths") =
      (if !(camel_paths pf).isEmpty && !(snake_paths pf).isEmpty then
        [Finding.mk "warning" "paths"
          "Inconsistent path naming: mix of camelCase and snake_case detected"]
      else []) := by
  rw [naming_findings h]
  unfold check_naming
  rw [hp]
  rfl

def c2_pathsFields : List (String × JVal) :=
  [("/a_b/xY", JVal.null), ("/cD", JVal.null)]

/-- The document of the C2 counterexample and of the C2 witness. -/
def c2_doc : List (String × JVal) :=
  [("openapi", JVal.str "3.0.0"),
   ("info", JVal.obj [("title", JVal.str "T"), ("description", JVal.str "d")]),
   ("paths", JVal.obj c2_pathsFields)]

/-- C2 counterexample: under the claim's classification (camelCase when ANY
remaining segment has a camel pair) both path keys of this document are
camelCase and its snake_case set is empty, so the claim predicts no
inconsistency warning; the code classifies `/a_b/xY` by its first matching
segment (`a_b`, snake_case) and does emit exactly that warning. -/
theorem path_naming_claim_counterexample :
    claim_classify "/a_b/xY" = some true ∧ claim_classify "/cD" = some true ∧
    (["/a_b/xY", "/cD"].filter fun k => claim_classify k == some false) = [] ∧
    validate_spec c2_doc = Except.ok [Finding.mk "warning" "paths"
      "Inconsistent path naming: mix of camelCase and snake_case detected"] :=
  ⟨rfl, rfl, rfl, rfl⟩

theorem path_naming_warning_iff_witness :
    ∃ fs, validate_spec c2_doc = Except.ok fs ∧
      (fs.filter fun f => f.severity == "warning" && f.path == "paths") =
        [Finding.mk "warning" "paths"
          "Inconsistent path naming: mix of camelCase and snake_case detected"] := by
  refine ⟨_, rfl, ?_⟩
  rw [path_naming_warning_iff c2_doc _ c2_pathsFields rfl rfl]
  rfl

/-- In a completed evaluation a finding located at `components.schemas.<S>`
can only come from the unused-schema check. -/
theorem schema_path_finding_in_unused {spec : List (String × JVal)} {fs : List Finding}
    {f : Finding} {S : String}
    (h : validate_spec spec = Except.ok fs)
    (hf : f ∈ fs) (hpath : f.path = "components.schemas." ++ S) :
    ∃ u, check_unused spec = Except.ok u ∧ f ∈ u := by
  obtain ⟨u, hu, hfs⟩ := validate_ok_decomp h
  subst hfs
  refine ⟨u, hu, ?_⟩
  simp only [List.mem_append] at hf
  rcases hf with (((((((hf | hf) | hf) | hf) | hf) | hf) | hf) | hf)
  · have h2 := (check_version_shape hf).2
    rw [hpath] at h2
    exact absurd h2 (schemas_prefix_ne_openapi S)
  · rcases (check_info_shape hf).2 with h2 | h2 <;> rw [hpath] at h2
    · exact absurd h2 (schemas_prefix_ne_info S)
    · exact absurd h2 (schemas_prefix_ne_info_title S)
  · have h2 := (check_paths_presence_shape hf).2
    rw [hpath] at h2
    exact absurd h2 (schemas_prefix_ne_paths S)
  · obtain ⟨r, h2⟩ := (check_methods_shape hf).2.1
    rw [hpath] at h2
    exact absurd h2 (schemas_ne_paths_dot S r)
  · have h2 := (check_info_description_shape hf).2
    rw [hpath] at h2
    exact absurd h2 (schemas_prefix_ne_info_description S)
  · obtain ⟨r, h2⟩ := (check_operations_shape hf).2
    rw [hpath] at h2
    exact absurd h2 (schemas_ne_paths_dot S r)
  · have h2 := congrArg Finding.path (check_naming_shape hf)
    rw [hpath] at h2
    exact absurd h2 (schemas_prefix_ne_paths S)
  · exact hf

/-- C3: for every key `S` of a present, non-empty `components.schemas`
object, a completed evaluation emits a warning at `components.schemas.<S>`
exactly when the string `#/components/schemas/<S>` is not in the reference
index, the index being the set of values of every `$ref` key reached by
recursively descending into objects and sequences but not into a `$ref`
key's own value. -/
theorem unused_schema_warning_iff (spec : List (String × JVal)) (fs : List Finding)
    (cf sf : List (String × JVal)) (S : String) (item : JVal)
    (hwf : wf_json (JVal.obj spec) = true)
    (h : validate_spec spec = Except.ok fs)
    (hcomp : lookupField spec "components" = some (JVal.obj cf))
    (hsch : lookupField cf "schemas" = some (JVal.obj sf))
    (hmem : (S, item) ∈ sf) :
    (∃ f ∈ fs, f.severity = "warning" ∧ f.path = "components.schemas." ++ S) ↔
      refs_contain_str (claim_ref_index (JVal.obj spec))
        ("#/components/schemas/" ++ S) = false := by
  obtain ⟨u, hu, hfs⟩ := validate_ok_decomp h
  have hgetc : (lookupField spec "components").getD (JVal.obj []) = JVal.obj cf := by
    rw [hcomp]; rfl
  have hgets : (lookupField cf "schemas").getD (JVal.obj []) = JVal.obj sf := by
    rw [hsch]; rfl
  have hne : sf.isEmpty = false := by
    cases sf with
    | nil => simp at hmem
    | cons a rest => rfl
  cases hcoll : collect_schema_refs (JVal.obj spec) [] with
  | error e =>
    exfalso
    unfold check_unused at hu
    simp only [hgetc, hgets, hne, Bool.false_eq_true, if_false, hcoll] at hu
    exact absurd hu (by simp)
  | ok all_refs =>
    have hequiv := collect_index_equiv (s := "#/components/schemas/" ++ S) hwf hcoll
    constructor
    · rintro ⟨f, hf, hsev, hpath⟩
      obtain ⟨u2, hu2, hfu⟩ := schema_path_finding_in_unused h hf hpath
      rw [hu] at hu2
      injection hu2 with hu2e
      rw [← hu2e] at hfu
      obtain ⟨cf2, sf2, ar2, S2, it2, hgetc2, hgets2, hcoll2, hmem2, hnc2, hf2⟩ :=
        check_unused_ok_mem hu hfu
      rw [hcoll] at hcoll2
      injection hcoll2 with har
      have hS : S2 = S := by
        have h2 := congrArg Finding.path hf2
        rw [hpath] at h2
        exact (schemas_prefix_inj h2).symm
      rw [← hequiv, har, ← hS]
      exact hnc2
    · intro hnc
      have hnc2 : refs_contain_str all_refs ("#/components/schemas/" ++ S) = false := by
        rw [hequiv]
        exact hnc
      have hin := check_unused_mem_intro hgetc hgets hcoll hu hmem hnc2
      refine ⟨Finding.mk "warning" ("components.schemas." ++ S)
        ("Schema '" ++ S ++ "' is defined but never referenced"), ?_, rfl, rfl⟩
      rw [hfs]
      simp only [List.mem_append]
      exact Or.inr hin

def c3_doc : List (String × JVal) :=
  [("openapi", JVal.str "3.0.0"),
   ("info", JVal.obj [("title", JVal.str "T"), ("description", JVal.str "d")]),
   ("paths", JVal.obj []),
   ("components", JVal.obj [("schemas", JVal.obj [("Pet", JVal.obj [])])])]

theorem unused_schema_warning_iff_witness :
    ∃ fs, validate_spec c3_doc = Except.ok fs ∧
      wf_json (JVal.obj c3_doc) = true ∧
      refs_contain_str (claim_ref_index (JVal.obj c3_doc))
        ("#/components/schemas/" ++ "Pet") = false ∧
      ∃ f ∈ fs, f.severity = "warning" ∧ f.path = "components.schemas." ++ "Pet" := by
  refine ⟨_, rfl, rfl, rfl, ?_⟩
  exact (unused_schema_warning_iff c3_doc _ [("schemas", JVal.obj [("Pet", JVal.obj [])])]
    [("Pet", JVal.obj [])] "Pet" (JVal.obj []) rfl rfl rfl rfl
    (List.mem_singleton.mpr rfl)).mpr rfl

/-- C10: the reference index is collected over the entire document including
the bodies of the schema definitions themselves, so whenever
`#/components/schemas/<S>` occurs as a `$ref` value anywhere (in particular
only inside schema `S` itself, or only inside another unused schema), schema
`S` counts as referenced and no finding is located at
`components.schemas.<S>`. -/
theorem schema_self_reference_counts (spec : List (String × JVal)) (fs : List Finding)
    (S : String)
    (hwf : wf_json (JVal.obj spec) = true)
    (h : validate_spec spec = Except.ok fs)
    (href : refs_contain_str (claim_ref_index (JVal.obj spec))
      ("#/components/schemas/" ++ S) = true) :
    ∀ f ∈ fs, f.path ≠ "components.schemas." ++ S := by
  intro f hf hpath
  obtain ⟨u, hu, hfu⟩ := schema_path_finding_in_unused h hf hpath
  obtain ⟨cf2, sf2, ar2, S2, it2, hgetc2, hgets2, hcoll2, hmem2, hnc2, hf2⟩ :=
    check_unused_ok_mem hu hfu
  have hS : S2 = S := by
    have h2 := congrArg Finding.path hf2
    rw [hpath] at h2
    exact (schemas_prefix_inj h2).symm
  have hequiv := collect_index_equiv (s := "#/components/schemas/" ++ S) hwf hcoll2
  rw [hS] at hnc2
  rw [hequiv] at hnc2
  rw [href] at hnc2
  exact absurd hnc2 (by simp)

/-- The C10 witness document: `Pet` is referenced only from inside its own
definition. -/
def c10_doc : List (String × JVal) :=
  [("openapi", JVal.str "3.0.0"),
   ("info", JVal.obj [("title", JVal.str "T"), ("description", JVal.str "d")]),
   ("paths", JVal.obj []),
   ("components", JVal.obj [("schemas", JVal.obj [("Pet",
      JVal.obj [("$ref", JVal.str "#/components/schemas/Pet")])])])]

theorem schema_self_reference_counts_witness :
    ∃ fs, validate_spec c10_doc = Except.ok fs ∧
      refs_contain_str (claim_ref_index (JVal.obj c10_doc))
        ("#/components/schemas/" ++ "Pet") = true ∧
      ∀ f ∈ fs, f.path ≠ "components.schemas." ++ "Pet" := by
  refine ⟨_, rfl, rfl, ?_⟩
  exact schema_self_reference_counts c10_doc _ "Pet" rfl rfl rfl

/-- C7: for a document whose `paths` value is an object, for every path item
that is an object and every key of it outside the five reserved keys, the
error finding at `paths.<pathKey>.<methodKey>` naming the key verbatim is
emitted exactly when the key's lowercase form is not one of the eight
recognized HTTP methods. -/
theorem http_method_check_correct (spec : List (String × JVal)) (fs : List Finding)
    (pf itf : List (String × JVal)) (p m : String) (w : JVal)
    (h : validate_spec spec = Except.ok fs)
    (hp : lookupField spec "paths" = some (JVal.obj pf))
    (hitem : (p, JVal.obj itf) ∈ pf)
    (hkey : (m, w) ∈ itf)
    (hres : reserved_path_item_keys.contains m = false) :
    (Finding.mk "error" ("paths." ++ p ++ "." ++ m)
        ("Invalid HTTP method: '" ++ m ++ "'") ∈ fs) ↔
      VALID_HTTP_METHODS.contains (pyLower m) = false := by
  obtain ⟨u, hu, hfs⟩ := validate_ok_decomp h
  have hgetp : (lookupField spec "paths").getD (JVal.obj []) = JVal.obj pf := by
    rw [hp]; rfl
  constructor
  · intro hmemF
    rw [hfs] at hmemF
    simp only [List.mem_append] at hmemF
    have hcm : Finding.mk "error" ("paths." ++ p ++ "." ++ m)
        ("Invalid HTTP method: '" ++ m ++ "'") ∈ check_methods spec := by
      rcases hmemF with (((((((hf | hf) | hf) | hf) | hf) | hf) | hf) | hf)
      · have h2 := (check_version_shape hf).2
        exact absurd h2 (paths_dot_ne_openapi p m)
      · rcases (check_info_shape hf).2 with h2 | h2
        · have h3 : "paths." ++ (p ++ ("." ++ m)) = "info" := by
            rw [← h2]
            simp [String.append_assoc]
          exact absurd h3 (paths_prefix_ne_info _)
        · have h3 : "paths." ++ (p ++ ("." ++ m)) = "info.title" := by
            rw [← h2]
            simp [String.append_assoc]
          exact absurd h3 (paths_prefix_ne_info_title _)
      · have h2 := (check_paths_presence_shape hf).2
        have h3 : "paths." ++ (p ++ ("." ++ m)) = "paths" := by
          rw [← h2]
          simp [String.append_assoc]
        exact absurd h3 (paths_prefix_ne_paths _)
      · exact hf
      · have h2 := (check_info_description_shape hf).1
        simp at h2
      · have h2 := (check_operations_shape hf).1
        simp at h2
      · have h2 := congrArg Finding.severity (check_naming_shape hf)
        simp at h2
      · obtain ⟨cf2, sf2, ar2, S2, it2, _, _, _, _, _, hf2⟩ := check_unused_ok_mem hu hf
        have h2 := congrArg Finding.severity hf2
        simp at h2
    obtain ⟨pf2, p2, it2, itf2, m2, w2, hpv2, hp2, hit2, hm2, hres2, hval2, hf2⟩ :=
      check_methods_mem_elim hcm
    have hmm : m2 = m := by
      have h2 := congrArg Finding.message hf2
      exact (invalid_method_message_inj h2).symm
    rw [hmm] at hval2
    exact hval2
  · intro hval
    rw [hfs]
    simp only [List.mem_append]
    refine Or.inl (Or.inl (Or.inl (Or.inl (Or.inr ?_))))
    exact check_methods_mem_intro hgetp hitem hkey hres hval

def c7_doc : List (String × JVal) :=
  [("openapi", JVal.str "3.0.0"),
   ("info", JVal.obj [("title", JVal.str "T"), ("description", JVal.str "d")]),
   ("paths", JVal.obj [("/x", JVal.obj [("FOO", JVal.null)])])]

theorem http_method_check_correct_witness :
    ∃ fs, validate_spec c7_doc = Except.ok fs ∧
      Finding.mk "error" ("paths." ++ "/x" ++ "." ++ "FOO")
        ("Invalid HTTP method: '" ++ "FOO" ++ "'") ∈ fs := by
  refine ⟨_, rfl, ?_⟩
  exact (http_method_check_correct c7_doc _ [("/x", JVal.obj [("FOO", JVal.null)])]
    [("FOO", JVal.null)] "/x" "FOO" JVal.null rfl rfl
    (List.mem_singleton.mpr rfl) (List.mem_singleton.mpr rfl) rfl).mpr rfl
